import Mathlib

/-!
Verification development for the MAB allocation service
(`src/services/allocation.py`, `src/services/experiment.py`,
`src/repositories/*.py`, `src/sql/__init__.py`, `src/rate_limit.py`).

Modelling conventions:
* Python numbers (ints, floats, Decimals, Snowflake NUMBERs) are embedded as
  `Int`/`Rat` with exact arithmetic; `round(x, n)` is modelled as round half to
  even at `n` decimal digits, which is Python's rounding rule.
* Warehouse rows returned by `execute_query` are string-keyed dictionaries
  (`dict(zip(columns, row))` with lower-cased column names); they are embedded
  as association lists `List (String × PyVal)`.  `m[k]` raises `KeyError` when
  the key is absent and is embedded as an `Except String` lookup; `m.get(k, d)`
  is a total lookup with default.
* The draws produced by `scipy.stats.beta.rvs` / `norm.rvs` inside
  `ThompsonSamplingEngine._sample_ctr` / `_sample_revenue` come from the
  process-global RNG, which the module never seeds.  They are modelled as an
  explicit parameter `samples : String → Nat → ℚ` giving, for each variant
  name, the i-th drawn value.
* `Settings` (src/config.py) is loaded from environment variables; it is a
  parameter of the embedding, with `defaultSettings` holding the defaults.
* Wall-clock effects (`datetime.utcnow`) and the experiment-id string do not
  influence any verified quantity and are carried only where the source
  stores them in the response.
-/

/-- A scalar value as produced by the Snowflake driver / used in Python dicts. -/
inductive PyVal where
  | vInt  : Int → PyVal
  | vRat  : ℚ → PyVal
  | vStr  : String → PyVal
  | vBool : Bool → PyVal
  deriving Repr, DecidableEq

/-- A warehouse row: `dict(zip(columns, row))` from `execute_query`. -/
abbrev Row := List (String × PyVal)

/-- Dictionary access `m[k]` — raises `KeyError` when the key is absent. -/
def dictGet (m : Row) (k : String) : Except String PyVal :=
  match m.lookup k with
  | some v => .ok v
  | none => .error ("KeyError: " ++ k)

/-- Dictionary access `m.get(k, d)` — total lookup with default. -/
def dictGetD (m : Row) (k : String) (d : PyVal) : PyVal :=
  (m.lookup k).getD d

/-- Python `int(x)` on the value shapes the driver produces
(ints, decimals, bools); truncation toward zero on non-integers. -/
def pyToInt : PyVal → Except String Int
  | .vInt n => .ok n
  | .vRat q => .ok (q.num / (q.den : Int))
  | .vBool b => .ok (if b then 1 else 0)
  | .vStr _ => .error "TypeError: int"

/-- Python `float(x)` (and `Decimal(str(x))`), embedded exactly as a rational. -/
def pyToRat : PyVal → Except String ℚ
  | .vInt n => .ok (n : ℚ)
  | .vRat q => .ok q
  | .vBool b => .ok (if b then 1 else 0)
  | .vStr _ => .error "TypeError: float"

/-- Python truthiness, used where a row value lands in a `bool` position. -/
def pyTruthy : PyVal → Bool
  | .vInt n => n ≠ 0
  | .vRat q => q ≠ 0
  | .vBool b => b
  | .vStr s => s ≠ ""

/-- String view of a row value (rows store variant ids/names as strings). -/
def pyStr : PyVal → String
  | .vStr s => s
  | .vInt n => toString n
  | .vRat q => toString q
  | .vBool b => toString b

/-- Round half to even to an integer (Python `round(x)` tie rule). -/
def roundHalfEven (q : ℚ) : ℤ :=
  if q - ⌊q⌋ = 1/2 then (if 2 ∣ ⌊q⌋ then ⌊q⌋ else ⌊q⌋ + 1) else round q

/-- Python `round(x, 2)`. -/
def pyRound2 (q : ℚ) : ℚ := (roundHalfEven (q * 100) : ℚ) / 100

/-- Python `round(x, 6)`. -/
def pyRound6 (q : ℚ) : ℚ := (roundHalfEven (q * 1000000) : ℚ) / 1000000

/-- Settings from src/config.py, loaded from the environment, defaults as in
the source. -/
structure Settings where
  default_window_days : ℤ
  max_window_days : ℤ
  min_impressions : ℤ
  thompson_samples : ℕ
  prior_alpha : ℤ
  prior_beta : ℤ
  deriving Repr, DecidableEq

def defaultSettings : Settings :=
  { default_window_days := 14
    max_window_days := 30
    min_impressions := 200
    thompson_samples := 10000
    prior_alpha := 1
    prior_beta := 99 }

/-- The four configuration fields of `ThompsonSamplingEngine.__init__`. -/
structure ThompsonSamplingEngine where
  n_samples : ℕ
  prior_alpha : ℤ
  prior_beta : ℤ
  min_impressions : ℤ
  deriving Repr, DecidableEq

/-- The engine `ThompsonSamplingEngine()` as constructed by `AllocationService.__init__`:
every field falls back to the settings value. -/
def engineOf (cfg : Settings) : ThompsonSamplingEngine :=
  { n_samples := cfg.thompson_samples
    prior_alpha := cfg.prior_alpha
    prior_beta := cfg.prior_beta
    min_impressions := cfg.min_impressions }

/-- The `VariantData` dataclass (src/services/allocation.py). -/
structure VariantData where
  variant_id : String
  variant_name : String
  is_control : Bool
  sessions : ℤ
  impressions : ℤ
  clicks : ℤ
  revenue : ℚ
  ctr : ℚ
  ctr_ci_lower : ℚ
  ctr_ci_upper : ℚ
  rps : ℚ
  rpm : ℚ
  alpha : ℚ
  beta : ℚ
  data_source : String
  deriving Repr, DecidableEq

namespace ThompsonSamplingEngine

/-- Method `compute_beta_params_ctr`: `(prior_alpha + clicks, prior_beta + impressions - clicks)`,
returned as floats. -/
def compute_beta_params_ctr (e : ThompsonSamplingEngine) (clicks impressions : ℤ) :
    ℚ × ℚ :=
  (((e.prior_alpha + clicks : ℤ) : ℚ), ((e.prior_beta + impressions - clicks : ℤ) : ℚ))

end ThompsonSamplingEngine

/-- The dict comprehension `{v.variant_name: 0 for v in variants}`: one entry
per distinct name, at the position of its first occurrence. -/
def dictInit : List String → List (String × ℕ)
  | [] => []
  | n :: rest => (n, 0) :: (dictInit rest).filter (fun p => p.1 ≠ n)

/-- Python `max(v0 :: vs, key=f)` — the first element attaining the maximum. -/
def pyListMax (f : VariantData → ℚ) (v0 : VariantData) (vs : List VariantData) :
    VariantData :=
  vs.foldl (fun b y => if f y > f b then y else b) v0

/-- Update `wins[k] += 1` on a dict embedded as an association list. -/
def incrKey : List (String × ℕ) → String → List (String × ℕ)
  | [], _ => []
  | (n, c) :: rest, k =>
      if n = k then (n, c + 1) :: rest else (n, c) :: incrKey rest k

/-- Update `allocations[k] += d` on a dict embedded as an association list. -/
def addToKey : List (String × ℚ) → String → ℚ → List (String × ℚ)
  | [], _, _ => []
  | (n, q) :: rest, k, d =>
      if n = k then (n, q + d) :: rest else (n, q) :: addToKey rest k d

/-- Python `max(allocations, key=allocations.get)` — the first key attaining
the maximal value (dict iteration is insertion order). -/
def dictArgmax : List (String × ℚ) → String
  | [] => ""
  | p :: rest => (rest.foldl (fun b q => if q.2 > b.2 then q else b) p).1

namespace ThompsonSamplingEngine

/-- The win-counting loop of `calculate_allocation`:
for each Monte Carlo index the first variant with the maximal sampled value
gets one win. -/
def countWins (e : ThompsonSamplingEngine) (v0 : VariantData) (vs : List VariantData)
    (samples : String → ℕ → ℚ) : List (String × ℕ) :=
  (List.range e.n_samples).foldl
    (fun w i => incrKey w (pyListMax (fun v => samples v.variant_name i) v0 vs).variant_name)
    (dictInit ((v0 :: vs).map (·.variant_name)))

/-- Method `ThompsonSamplingEngine.calculate_allocation`.  `samples` gives the values
drawn by `_sample_ctr` / `_sample_revenue` for each variant name (the module
draws from the process-global RNG, see the header).  Returns the allocation
dict as an association list in insertion order. -/
def calculate_allocation (e : ThompsonSamplingEngine) (variants : List VariantData)
    (samples : String → ℕ → ℚ) : List (String × ℚ) :=
  match variants with
  | [] => []
  | v0 :: vs =>
    let wins := countWins e v0 vs samples
    let allocations := wins.map (fun p => (p.1, pyRound2 ((p.2 : ℚ) / (e.n_samples : ℚ) * 100)))
    let total := (allocations.map (·.2)).sum
    if total ≠ 100 then
      addToKey allocations (dictArgmax allocations) (pyRound2 (100 - total))
    else
      allocations

end ThompsonSamplingEngine

/-- One row of the result of `MetricsQueries.SELECT_FOR_ALLOCATION`
(src/sql/__init__.py): the exact column list of the query, lower-cased by
`execute_query`.  `ctr` is Snowflake decimal division, exact in `ℚ`;
`beta_alpha`/`beta_beta` use the bound prior parameters.  The query returns no
`sessions`, `revenue`, `ctr_ci_lower` or `ctr_ci_upper` columns. -/
def allocationQueryRow (variant_id variant_name : String) (is_control : Bool)
    (impressions clicks prior_alpha prior_beta : ℤ) : Row :=
  [("variant_id", .vStr variant_id),
   ("variant_name", .vStr variant_name),
   ("is_control", .vBool is_control),
   ("impressions", .vInt impressions),
   ("clicks", .vInt clicks),
   ("ctr", .vRat (if 0 < impressions then (clicks : ℚ) / (impressions : ℚ) else 0)),
   ("beta_alpha", .vInt (clicks + prior_alpha)),
   ("beta_beta", .vInt (impressions - clicks + prior_beta))]

/-- The `variant_name` value of a row, as a successful conversion stores it
(`pyStr` of the row's `variant_name` entry). -/
def rowName (m : Row) : String := pyStr (dictGetD m "variant_name" (.vStr ""))

/-- The per-row body of `AllocationService._convert_to_variant_data`, with the
dictionary accesses in source evaluation order (`m["sessions"]` first). -/
def convertRow (e : ThompsonSamplingEngine) (m : Row) (optimization_target : String)
    (use_fallback : Bool) : Except String VariantData := do
  let sessions ← pyToInt (← dictGet m "sessions")
  let impressions ← pyToInt (← dictGet m "impressions")
  let clicks ← pyToInt (← dictGet m "clicks")
  let revenue ← pyToRat (← dictGet m "revenue")
  let ctr ← pyToRat (dictGetD m "ctr" (.vInt 0))
  let rps ← pyToRat (dictGetD m "rps" (.vInt 0))
  let rpm ← pyToRat (dictGetD m "rpm" (.vInt 0))
  let ctr_ci_lower ← pyToRat (dictGetD m "ctr_ci_lower" (.vInt 0))
  let ctr_ci_upper ← pyToRat (dictGetD m "ctr_ci_upper" (.vInt 0))
  let src_alpha_beta : String × ℚ × ℚ :=
    if use_fallback ∨ impressions < e.min_impressions then
      ("fallback", (e.prior_alpha : ℚ), (e.prior_beta : ℚ))
    else if optimization_target = "ctr" then
      let p := e.compute_beta_params_ctr clicks impressions
      ("observed", p.1, p.2)
    else
      ("observed", 1, 1)
  let vid ← dictGet m "variant_id"
  let vname ← dictGet m "variant_name"
  let ic ← dictGet m "is_control"
  return { variant_id := pyStr vid
           variant_name := pyStr vname
           is_control := pyTruthy ic
           sessions := sessions
           impressions := impressions
           clicks := clicks
           revenue := revenue
           ctr := ctr
           ctr_ci_lower := ctr_ci_lower
           ctr_ci_upper := ctr_ci_upper
           rps := rps
           rpm := rpm
           alpha := src_alpha_beta.2.1
           beta := src_alpha_beta.2.2
           data_source := src_alpha_beta.1 }

/-- Method `AllocationService._convert_to_variant_data`: rows are converted in order
(the Python `for` loop appends one `VariantData` per row); the first failing
dictionary access aborts the whole call. -/
def _convert_to_variant_data (e : ThompsonSamplingEngine) (metrics_data : List Row)
    (optimization_target : String) (use_fallback : Bool) :
    Except String (List VariantData) :=
  match metrics_data with
  | [] => .ok []
  | m :: rest => do
    let v ← convertRow e m optimization_target use_fallback
    let vs ← _convert_to_variant_data e rest optimization_target use_fallback
    return v :: vs

/-- Method `AllocationService._has_sufficient_data`. -/
def _has_sufficient_data (e : ThompsonSamplingEngine) (variants : List VariantData) :
    Bool :=
  match variants with
  | [] => false
  | _ => variants.all (fun v => v.impressions ≥ e.min_impressions)

/-- The `ConfidenceInterval` response model. -/
structure ConfidenceInterval where
  lower : ℚ
  upper : ℚ
  deriving Repr, DecidableEq

/-- The `VariantMetrics` response model. -/
structure VariantMetrics where
  sessions : ℤ
  impressions : ℤ
  clicks : ℤ
  revenue : ℚ
  ctr : ℚ
  ctr_ci : ConfidenceInterval
  rps : ℚ
  rpm : ℚ
  deriving Repr, DecidableEq

/-- The `VariantAllocation` response model. -/
structure VariantAllocation where
  variant_name : String
  is_control : Bool
  allocation_percentage : ℚ
  metrics : VariantMetrics
  deriving Repr, DecidableEq

/-- The `AllocationResponse` response model (`computed_at`, a wall-clock timestamp,
is not modelled). -/
structure AllocationResponse where
  experiment_id : String
  experiment_name : String
  algorithm : String
  optimization_target : String
  window_days : ℤ
  allocations : List VariantAllocation
  deriving Repr, DecidableEq

/-- The experiment row used by `get_allocation`
(`ExperimentRepository.get_experiment_by_id`): only `name` and
`optimization_target` are read (the latter via `.get(..., "ctr")`, and
`SELECT_BY_ID` always returns the column). -/
structure Experiment where
  name : String
  optimization_target : String
  deriving Repr, DecidableEq

/-- One response-entry construction step of `get_allocation`:
`allocations.get(v.variant_name, 0.0)` plus the rounded metrics block. -/
def toVariantAllocation (allocations : List (String × ℚ)) (v : VariantData) :
    VariantAllocation :=
  { variant_name := v.variant_name
    is_control := v.is_control
    allocation_percentage := (allocations.lookup v.variant_name).getD 0
    metrics :=
      { sessions := v.sessions
        impressions := v.impressions
        clicks := v.clicks
        revenue := v.revenue
        ctr := pyRound6 v.ctr
        ctr_ci := ⟨pyRound6 v.ctr_ci_lower, pyRound6 v.ctr_ci_upper⟩
        rps := pyRound6 v.rps
        rpm := pyRound6 v.rpm } }

/-- The sort key `(-x.is_control, -x.allocation_percentage)` (True = 1). -/
def allocKey (x : VariantAllocation) : ℚ × ℚ :=
  ((if x.is_control then -1 else 0), -x.allocation_percentage)

/-- Python's stable ascending sort on the key tuple, compared lexicographically. -/
def allocLe (x y : VariantAllocation) : Prop :=
  (allocKey x).1 < (allocKey y).1 ∨
    ((allocKey x).1 = (allocKey y).1 ∧ (allocKey x).2 ≤ (allocKey y).2)

instance : DecidableRel allocLe := fun x y => by
  unfold allocLe; infer_instance

/-- A row of `allocation_history` as `AllocationHistoryRepository.save_allocation`
would insert it (key fields of `INSERT_HISTORY`). -/
structure AllocationHistoryWrite where
  experiment_id : String
  window_days : ℤ
  algorithm : String
  seed : ℤ
  used_fallback : Bool
  deriving Repr, DecidableEq

/-- Result of `AllocationService.get_allocation` together with the allocation
history rows the call persists.  The source never imports
`AllocationHistoryRepository` and performs no history insert, so the write
trace of the translation is empty. -/
structure GetAllocationResult where
  response : Except String (Option AllocationResponse)
  history_writes : List AllocationHistoryWrite
  deriving Repr

/-- Method `AllocationService.get_allocation`.  Parameters stand for the collaborating
collaborators: `experiment` is the repository lookup result, `getMetrics w`
the rows of `SELECT_FOR_ALLOCATION` for window `w`, `samples` the Monte Carlo
draws (see header).  `.ok none` models Python's `return None` (HTTP 404),
`.error` a raised exception. -/
def get_allocation (cfg : Settings) (experiment : Option Experiment)
    (getMetrics : ℤ → List Row) (samples : String → ℕ → ℚ)
    (experiment_id : String) (window_days : Option ℤ) : GetAllocationResult :=
  let e := engineOf cfg
  let w := window_days.getD cfg.default_window_days
  match experiment with
  | none => { response := .ok none, history_writes := [] }
  | some exp =>
    let target := exp.optimization_target
    let res : Except String (Option AllocationResponse) := do
      let mdFirst := getMetrics w
      let vsFirst ← _convert_to_variant_data e mdFirst target false
      let expand : Bool :=
        !(_has_sufficient_data e vsFirst) && decide (w < cfg.max_window_days)
      let md := if expand then getMetrics cfg.max_window_days else mdFirst
      let vsMid ← if expand then _convert_to_variant_data e md target false
                  else pure vsFirst
      let fallback : Bool := !(_has_sufficient_data e vsMid)
      let vs ← if fallback then _convert_to_variant_data e md target true
               else pure vsMid
      let actual_window := if expand then cfg.max_window_days else w
      let allocations := e.calculate_allocation vs samples
      let variant_allocations := vs.map (toVariantAllocation allocations)
      let sorted := List.insertionSort allocLe variant_allocations
      let algorithm :=
        if fallback then
          "thompson_sampling (fallback: prior only, target: " ++ target ++ ")"
        else
          "thompson_sampling (target: " ++ target ++ ")"
      return some { experiment_id := experiment_id
                    experiment_name := exp.name
                    algorithm := algorithm
                    optimization_target := target
                    window_days := actual_window
                    allocations := sorted }
    { response := res, history_writes := [] }

/-- Python `int(x)` truncation toward zero on a rational. -/
def truncQ (q : ℚ) : ℤ := q.num / (q.den : ℤ)

namespace RateLimiter

/-- Method `RateLimiter._clean_old_requests`: keep entries with `ts > now - window`.
The per-key list holds `(timestamp, count)` pairs. -/
def clean_old_requests (reqs : List (ℚ × ℕ)) (now : ℚ) (window_seconds : ℤ) :
    List (ℚ × ℕ) :=
  reqs.filter (fun p => p.1 > now - (window_seconds : ℚ))

/-- Python `min(ts for ts, _ in requests)` over a non-empty list. -/
def minTs : List (ℚ × ℕ) → Option ℚ
  | [] => none
  | p :: rest => some (rest.foldl (fun m q => min m q.1) p.1)

/-- Method `RateLimiter.is_allowed` for one key: returns
`((is_allowed, remaining, reset_seconds), new per-key list)`. -/
def is_allowed (reqs : List (ℚ × ℕ)) (now : ℚ) (max_requests window_seconds : ℤ) :
    (Bool × ℤ × ℤ) × List (ℚ × ℕ) :=
  let cleaned := clean_old_requests reqs now window_seconds
  let total : ℕ := (cleaned.map (·.2)).sum
  if max_requests ≤ (total : ℤ) then
    let reset : ℤ :=
      match minTs cleaned with
      | some oldest => truncQ (oldest + (window_seconds : ℚ) - now)
      | none => window_seconds
    ((false, 0, reset), cleaned)
  else
    ((true, max_requests - (total : ℤ) - 1, window_seconds), cleaned ++ [(now, 1)])

end RateLimiter

/-- A `raw_metrics` row with the columns `INSERT_RAW` actually inserts. -/
structure RawMetricRow where
  variant_id : String
  metric_date : String
  impressions : ℤ
  clicks : ℤ
  deriving Repr, DecidableEq

/-- A `daily_metrics` row with the columns `UPSERT_DAILY` actually writes. -/
structure DailyMetricRow where
  variant_id : String
  metric_date : String
  impressions : ℤ
  clicks : ℤ
  deriving Repr, DecidableEq

/-- The metrics tables of the warehouse. -/
structure DBState where
  raw_metrics : List RawMetricRow
  daily_metrics : List DailyMetricRow
  deriving Repr, DecidableEq

/-- Query `MetricsQueries.UPSERT_DAILY`: `MERGE` on `(variant_id, metric_date)` —
update the matching row's counts, else insert. -/
def upsertDaily : List DailyMetricRow → DailyMetricRow → List DailyMetricRow
  | [], r => [r]
  | x :: xs, r =>
      if x.variant_id = r.variant_id ∧ x.metric_date = r.metric_date then
        { x with impressions := r.impressions, clicks := r.clicks } :: xs
      else
        x :: upsertDaily xs r

/-- Method `MetricsRepository.insert_metrics`: ONE transaction covering this entry, its
raw append and daily upsert; on failure the transaction rolls back (state
unchanged) and the exception propagates.  `fails` is the failure oracle for
this call (a driver/warehouse error anywhere inside the transaction). -/
def insert_metrics (s : DBState) (variant_id metric_date : String)
    (impressions clicks : ℤ) (fails : Bool) : Except String DBState :=
  if fails then
    .error "db error"
  else
    .ok { raw_metrics :=
            s.raw_metrics ++ [⟨variant_id, metric_date, impressions, clicks⟩]
          daily_metrics :=
            upsertDaily s.daily_metrics ⟨variant_id, metric_date, impressions, clicks⟩ }

/-- One entry of a `MetricsBatchRequest`. -/
structure MetricEntry where
  variant_name : String
  impressions : ℤ
  clicks : ℤ
  sessions : ℤ
  revenue : ℚ
  deriving Repr, DecidableEq

/-- A variant row as returned inside `get_experiment_by_id`. -/
structure VariantRow where
  id : String
  name : String
  deriving Repr, DecidableEq

/-- The experiment dict used by `ExperimentService.record_metrics`. -/
structure ExperimentWithVariants where
  id : String
  name : String
  variants : List VariantRow
  deriving Repr, DecidableEq

/-- The dict `{v["name"]: v["id"] for v in experiment["variants"]}` (on a
duplicate name the last occurrence wins, as in a Python dict). -/
def variantIdFor (vars : List VariantRow) (name : String) : Option String :=
  ((vars.map (fun v => (v.name, v.id))).reverse).lookup name

/-- The insertion loop of `record_metrics`: entries are inserted one at a
time; a failing insert aborts the loop, keeping all previously committed
entries. -/
def insertLoop (vmap : String → Option String) (date : String) (fails : ℕ → Bool) :
    DBState → ℕ → List MetricEntry → DBState × Except String Unit
  | s, _, [] => (s, .ok ())
  | s, i, entry :: rest =>
      match insert_metrics s ((vmap entry.variant_name).getD "") date
          entry.impressions entry.clicks (fails i) with
      | .error msg => (s, .error msg)
      | .ok s' => insertLoop vmap date fails s' (i + 1) rest

/-- The `MetricsResponse` model. -/
structure MetricsResponse where
  message : String
  date : String
  variants_updated : ℕ
  deriving Repr, DecidableEq

/-- Method `ExperimentService.record_metrics`: verify the experiment exists, verify
every entry's variant name, then insert entry by entry (each entry is its own
transaction, see `insert_metrics`).  Returns the final warehouse state and
the outcome; `fails i` says whether the i-th `insert_metrics` call raises. -/
def record_metrics (experiment : Option ExperimentWithVariants) (s : DBState)
    (date : String) (entries : List MetricEntry) (fails : ℕ → Bool) :
    DBState × Except String MetricsResponse :=
  match experiment with
  | none => (s, .error "Experiment not found")
  | some exp =>
    if entries.all (fun m => (variantIdFor exp.variants m.variant_name).isSome) then
      match insertLoop (variantIdFor exp.variants) date fails s 0 entries with
      | (s', .ok _) =>
          (s', .ok { message := "Metrics recorded successfully"
                     date := date
                     variants_updated := entries.length })
      | (s', .error msg) => (s', .error msg)
    else
      (s, .error "Variant not found in experiment")

/-- The state produced by successfully inserting a prefix of the batch:
for each entry one raw append plus one daily upsert. -/
def applyEntries (vmap : String → Option String) (date : String) :
    DBState → List MetricEntry → DBState
  | s, [] => s
  | s, entry :: rest =>
      applyEntries vmap date
        { raw_metrics := s.raw_metrics ++
            [⟨(vmap entry.variant_name).getD "", date, entry.impressions, entry.clicks⟩]
          daily_metrics := upsertDaily s.daily_metrics
            ⟨(vmap entry.variant_name).getD "", date, entry.impressions, entry.clicks⟩ }
        rest

/-- A concrete environment for closed evaluations: `THOMPSON_SAMPLES=4`, all
other settings at their defaults (the sample count is configuration, not part
of the algorithm). -/
def cfg4 : Settings := { defaultSettings with thompson_samples := 4 }

/-- Variant fixture: the control row of the repo's integration-test mock
(10000 impressions, 320 clicks), with its observed posterior. -/
def testVariantControl : VariantData :=
  { variant_id := "var_001", variant_name := "control", is_control := true
    sessions := 0, impressions := 10000, clicks := 320, revenue := 0
    ctr := 8/250, ctr_ci_lower := 0, ctr_ci_upper := 0, rps := 0, rpm := 0
    alpha := 321, beta := 9779, data_source := "observed" }

/-- Variant fixture: the treatment row of the repo's integration-test mock
(10000 impressions, 450 clicks). -/
def testVariantA : VariantData :=
  { variant_id := "var_002", variant_name := "variant_a", is_control := false
    sessions := 0, impressions := 10000, clicks := 450, revenue := 0
    ctr := 9/200, ctr_ci_lower := 0, ctr_ci_upper := 0, rps := 0, rpm := 0
    alpha := 451, beta := 9649, data_source := "observed" }

/-- Variant fixture with zero impressions (prior-only Beta parameters, as the
conversion layer produces for an empty window). -/
def zeroVariantControl : VariantData :=
  { variant_id := "var_001", variant_name := "control", is_control := true
    sessions := 0, impressions := 0, clicks := 0, revenue := 0
    ctr := 0, ctr_ci_lower := 0, ctr_ci_upper := 0, rps := 0, rpm := 0
    alpha := 1, beta := 99, data_source := "fallback" }

/-- Second zero-impressions variant fixture. -/
def zeroVariantA : VariantData :=
  { variant_id := "var_002", variant_name := "variant_a", is_control := false
    sessions := 0, impressions := 0, clicks := 0, revenue := 0
    ctr := 0, ctr_ci_lower := 0, ctr_ci_upper := 0, rps := 0, rpm := 0
    alpha := 1, beta := 99, data_source := "fallback" }

/-- One possible state of the unseeded process-global RNG: every draw for
`control` is 1, every other draw is 0. -/
def rngStreamA : String → ℕ → ℚ :=
  fun name _ => if name = "control" then 1 else 0

/-- Another possible state of the unseeded process-global RNG: every draw for
`control` is 0, every other draw is 1. -/
def rngStreamB : String → ℕ → ℚ :=
  fun name _ => if name = "control" then 0 else 1

/-- A metrics row carrying every key `_convert_to_variant_data` reads — the
shape the conversion layer requires (the deployed query produces no such
rows, see `allocationQueryRow`). -/
def fullMetricsRow (variant_id variant_name : String) (is_control : Bool)
    (impressions clicks : ℤ) : Row :=
  [("variant_id", .vStr variant_id),
   ("variant_name", .vStr variant_name),
   ("is_control", .vBool is_control),
   ("sessions", .vInt 0),
   ("impressions", .vInt impressions),
   ("clicks", .vInt clicks),
   ("revenue", .vInt 0)]

/-- The metrics-repository stub used for the closed response evaluation:
two full rows for every window. -/
def c1Metrics : ℤ → List Row :=
  fun _ => [fullMetricsRow "var_001" "control" true 10000 320,
            fullMetricsRow "var_002" "variant_a" false 10000 450]

/-- Metrics-repository stub for the window-expansion scenario: 150
impressions per variant in the 14-day window, 250 in the 30-day window
(insufficient at the default window, sufficient at the maximum). -/
def c5Metrics : ℤ → List Row := fun d =>
  if d = 30 then
    [fullMetricsRow "var_001" "control" true 250 10,
     fullMetricsRow "var_002" "variant_a" false 250 12]
  else
    [fullMetricsRow "var_001" "control" true 150 6,
     fullMetricsRow "var_002" "variant_a" false 150 7]

/-- Experiment fixture with two variants for `record_metrics`. -/
def expTwoVariants : ExperimentWithVariants :=
  { id := "exp_123", name := "test_experiment"
    variants := [⟨"var_001", "control"⟩, ⟨"var_002", "variant_a"⟩] }

/-- Batch entry fixture: `control`, 10000 impressions, 320 clicks. -/
def entryControl : MetricEntry := ⟨"control", 10000, 320, 0, 0⟩

/-- Batch entry fixture: `variant_a`, 10000 impressions, 450 clicks. -/
def entryVariantA : MetricEntry := ⟨"variant_a", 10000, 450, 0, 0⟩

/-- Failure oracle: the second `insert_metrics` call fails (a transient
warehouse error partway through the batch). -/
def failSecond : ℕ → Bool := fun i => decide (i = 1)

/-- C7: for any impressions `n` and clicks `k` with `0 ≤ k ≤ n`, and positive
prior parameters, `compute_beta_params_ctr` returns exactly
`(prior_alpha + k, prior_beta + n − k)`, and both components are strictly
positive. -/
theorem compute_beta_params_ctr_posterior (e : ThompsonSamplingEngine)
    (n k : ℤ) (hk : 0 ≤ k) (hkn : k ≤ n)
    (ha : 0 < e.prior_alpha) (hb : 0 < e.prior_beta) :
    e.compute_beta_params_ctr k n =
      ((e.prior_alpha : ℚ) + (k : ℚ), (e.prior_beta : ℚ) + (n : ℚ) - (k : ℚ)) ∧
    0 < (e.compute_beta_params_ctr k n).1 ∧
    0 < (e.compute_beta_params_ctr k n).2 := by
  have heq : e.compute_beta_params_ctr k n =
      (((e.prior_alpha + k : ℤ) : ℚ), ((e.prior_beta + n - k : ℤ) : ℚ)) := rfl
  refine ⟨?_, ?_, ?_⟩
  · rw [heq]; congr 1 <;> push_cast <;> ring
  · rw [heq]; dsimp only
    exact_mod_cast (show (0 : ℤ) < e.prior_alpha + k by omega)
  · rw [heq]; dsimp only
    exact_mod_cast (show (0 : ℤ) < e.prior_beta + n - k by omega)

/-- Witness for C7 at the default configuration, n = 10, k = 3. -/
theorem compute_beta_params_ctr_posterior_witness :
    (engineOf defaultSettings).compute_beta_params_ctr 3 10 = (4, 106) ∧
    0 < ((engineOf defaultSettings).compute_beta_params_ctr 3 10).1 :=
  ⟨by with_unfolding_all decide,
   (compute_beta_params_ctr_posterior (engineOf defaultSettings) 10 3
      (by decide) (by decide) (by decide) (by decide)).2.1⟩

/-- C10: a call to `RateLimiter.is_allowed` appends a `(now, 1)` entry if and
only if it returns allowed; a blocked call leaves exactly the evicted list
(entries older than the window removed, nothing appended), and the call is
blocked iff the recorded request count after eviction already reaches
`max_requests`. -/
theorem is_allowed_append_iff_allowed (reqs : List (ℚ × ℕ)) (now : ℚ)
    (max_requests window_seconds : ℤ) :
    ((RateLimiter.is_allowed reqs now max_requests window_seconds).1.1 = false →
      (RateLimiter.is_allowed reqs now max_requests window_seconds).2 =
        RateLimiter.clean_old_requests reqs now window_seconds) ∧
    ((RateLimiter.is_allowed reqs now max_requests window_seconds).1.1 = true →
      (RateLimiter.is_allowed reqs now max_requests window_seconds).2 =
        RateLimiter.clean_old_requests reqs now window_seconds ++ [(now, 1)]) ∧
    ((RateLimiter.is_allowed reqs now max_requests window_seconds).1.1 = false ↔
      max_requests ≤
        (((RateLimiter.clean_old_requests reqs now window_seconds).map (·.2)).sum : ℤ)) := by
  unfold RateLimiter.is_allowed
  dsimp only
  split_ifs with h
  · refine ⟨fun _ => rfl, fun hT => hT.elim, ⟨fun _ => ?_, fun _ => rfl⟩⟩
    push_cast at h
    rw [List.map_map] at h
    exact h
  · refine ⟨fun hF => hF.elim, fun _ => rfl, ⟨fun hF => hF.elim, fun hc => absurd ?_ h⟩⟩
    push_cast
    rw [List.map_map]
    exact hc

/-- Witness for C10: one blocked call (limit 0) and one allowed call (limit 10)
on an empty history. -/
theorem is_allowed_append_iff_allowed_witness :
    (RateLimiter.is_allowed [] 0 0 60).2 = RateLimiter.clean_old_requests [] 0 60 ∧
    (RateLimiter.is_allowed [] 0 10 60).2 =
      RateLimiter.clean_old_requests [] 0 60 ++ [(0, 1)] :=
  ⟨(is_allowed_append_iff_allowed [] 0 0 60).1 (by with_unfolding_all decide),
   (is_allowed_append_iff_allowed [] 0 10 60).2.1 (by with_unfolding_all decide)⟩

/-- C3 (code_bug evidence): `_convert_to_variant_data` raises
`KeyError: sessions` on every row `SELECT_FOR_ALLOCATION` can produce —
the query selects no `sessions` (nor `revenue`) column, while the conversion
indexes `m["sessions"]` unconditionally — so `get_allocation` raises instead
of returning a 200 response for every experiment with at least one variant. -/
theorem convert_raises_keyerror_on_query_rows
    (e : ThompsonSamplingEngine) (vid vname : String) (ic : Bool)
    (impressions clicks pa pb : ℤ) (rest : List Row)
    (target : String) (use_fb : Bool) :
    _convert_to_variant_data e
      (allocationQueryRow vid vname ic impressions clicks pa pb :: rest)
      target use_fb = .error "KeyError: sessions" := by
  with_unfolding_all rfl

/-- C8 (code_bug evidence): `SELECT_FOR_ALLOCATION` computes no Wilson
interval — its rows have no `ctr_ci_lower`/`ctr_ci_upper` keys — so the
conversion layer's `.get(..., 0)` defaults both bounds to 0, and for a row
with clicks > 0 (n = 100, k = 10, CTR = 1/10) the claimed chain
`lower ≤ k/n ≤ upper` fails at the defaulted upper bound. -/
theorem allocation_query_has_no_wilson_interval
    (vid vname : String) (ic : Bool) (impressions clicks pa pb : ℤ) :
    (allocationQueryRow vid vname ic impressions clicks pa pb).lookup
      "ctr_ci_lower" = none ∧
    (allocationQueryRow vid vname ic impressions clicks pa pb).lookup
      "ctr_ci_upper" = none ∧
    pyToRat (dictGetD (allocationQueryRow vid vname ic impressions clicks pa pb)
      "ctr_ci_upper" (.vInt 0)) = .ok 0 ∧
    ¬ ((10 : ℚ) / 100 ≤ 0) := by
  refine ⟨?_, ?_, ?_, by norm_num⟩ <;> with_unfolding_all rfl

set_option maxRecDepth 400000 in
/-- C2 (code_bug evidence): no seed is derived from (experiment_id, date) and
none is applied — `_sample_ctr` draws from the unseeded process-global RNG —
so with variants, configuration and everything else fixed, the allocation
output still depends on the ambient RNG state: two states of the global RNG
give different percentages. -/
theorem allocation_depends_on_ambient_rng_state :
    (engineOf cfg4).calculate_allocation [testVariantControl, testVariantA]
        rngStreamA ≠
      (engineOf cfg4).calculate_allocation [testVariantControl, testVariantA]
        rngStreamB := by
  with_unfolding_all decide

set_option maxRecDepth 400000 in
/-- C6 (code_bug evidence): with every variant at zero impressions the code
still runs the Monte Carlo loop on ambient RNG draws — there is no uniform
special case — so the result is whatever the draws dictate (here 100/0), not
the exact uniform split 50/50 that the repo's own unit test asserts; the
empty input does yield the empty result. -/
theorem zero_impressions_not_exact_uniform :
    (engineOf cfg4).calculate_allocation [zeroVariantControl, zeroVariantA]
        rngStreamA = [("control", 100), ("variant_a", 0)] ∧
    (engineOf cfg4).calculate_allocation [zeroVariantControl, zeroVariantA]
        rngStreamA ≠ [("control", 50), ("variant_a", 50)] ∧
    (engineOf cfg4).calculate_allocation [] rngStreamA = [] := by
  refine ⟨?_, ?_, ?_⟩ <;> with_unfolding_all decide

set_option maxRecDepth 400000 in
/-- C4 (code_bug evidence): an allocation computation that returns a response
persists nothing: `get_allocation` never calls
`AllocationHistoryRepository.save_allocation` (the module does not even import
it), so the history-write trace is empty while the response is returned. -/
theorem get_allocation_persists_no_history :
    (get_allocation cfg4 (some ⟨"test_experiment", "ctr"⟩)
        (fun _ => [fullMetricsRow "var_001" "control" true 10000 320,
                   fullMetricsRow "var_002" "variant_a" false 10000 450])
        rngStreamA "exp_123" none).history_writes = [] ∧
    ∃ resp, (get_allocation cfg4 (some ⟨"test_experiment", "ctr"⟩)
        (fun _ => [fullMetricsRow "var_001" "control" true 10000 320,
                   fullMetricsRow "var_002" "variant_a" false 10000 450])
        rngStreamA "exp_123" none).response = .ok (some resp) := by
  constructor
  · rfl
  · with_unfolding_all exact ⟨_, rfl⟩

/-- C9 (counterexample): a warehouse error on the second entry of a two-entry
batch leaves the first entry's raw append and daily upsert committed while
the call raises — the batch as a whole is not transactional. -/
theorem record_metrics_batch_not_atomic :
    (record_metrics (some expTwoVariants) ⟨[], []⟩ "2025-01-15"
        [entryControl, entryVariantA] failSecond).1 =
      ⟨[⟨"var_001", "2025-01-15", 10000, 320⟩],
       [⟨"var_001", "2025-01-15", 10000, 320⟩]⟩ ∧
    (record_metrics (some expTwoVariants) ⟨[], []⟩ "2025-01-15"
        [entryControl, entryVariantA] failSecond).2 = .error "db error" ∧
    (⟨[⟨"var_001", "2025-01-15", 10000, 320⟩],
      [⟨"var_001", "2025-01-15", 10000, 320⟩]⟩ : DBState) ≠ ⟨[], []⟩ := by
  refine ⟨?_, ?_, by decide⟩ <;> with_unfolding_all rfl

/-- A fold that at each step keeps either the accumulator or the next element
ends on a member of the initial accumulator or the list. -/
theorem foldl_choice_mem {α : Type} (step : α → α → α)
    (hstep : ∀ b y, step b y = b ∨ step b y = y) :
    ∀ (l : List α) (a : α), l.foldl step a ∈ a :: l := by
  intro l
  induction l with
  | nil => intro a; simp
  | cons y ys ih =>
    intro a
    have h := ih (step a y)
    rcases hstep a y with he | he <;> rw [he] at h <;>
      simp only [List.foldl_cons, he, List.mem_cons] at h ⊢ <;> tauto

/-- The `dictArgmax` of a non-empty dict is one of its keys. -/
theorem dictArgmax_mem (d : List (String × ℚ)) (hd : d ≠ []) :
    dictArgmax d ∈ d.map Prod.fst := by
  match d, hd with
  | p :: rest, _ =>
    have h := foldl_choice_mem (fun b q => if q.2 > b.2 then q else b)
      (fun b y => by by_cases hc : y.2 > b.2 <;> simp [hc]) rest p
    exact List.mem_map_of_mem Prod.fst h

/-- Function `incrKey` preserves the key list. -/
theorem incrKey_keys (d : List (String × ℕ)) (k : String) :
    (incrKey d k).map Prod.fst = d.map Prod.fst := by
  induction d with
  | nil => rfl
  | cons p rest ih =>
    obtain ⟨n, c⟩ := p
    by_cases h : n = k <;> simp [incrKey, h, ih]

/-- The win-counting fold preserves the key list. -/
theorem foldl_incrKey_keys (f : ℕ → String) (l : List ℕ) :
    ∀ w : List (String × ℕ),
      ((l.foldl (fun w i => incrKey w (f i)) w).map Prod.fst) = w.map Prod.fst := by
  induction l with
  | nil => intro w; rfl
  | cons i rest ih =>
    intro w
    simpa [List.foldl_cons] using (ih (incrKey w (f i))).trans (incrKey_keys w (f i))

/-- Function `addToKey` preserves the key list. -/
theorem addToKey_keys (d : List (String × ℚ)) (k : String) (x : ℚ) :
    (addToKey d k x).map Prod.fst = d.map Prod.fst := by
  induction d with
  | nil => rfl
  | cons p rest ih =>
    obtain ⟨n, q⟩ := p
    by_cases h : n = k <;> simp [addToKey, h, ih]

/-- Function `addToKey` on a present key adds exactly its increment to the value sum. -/
theorem addToKey_valsum (d : List (String × ℚ)) (k : String) (x : ℚ)
    (hk : k ∈ d.map Prod.fst) :
    ((addToKey d k x).map Prod.snd).sum = (d.map Prod.snd).sum + x := by
  induction d with
  | nil => simp at hk
  | cons p rest ih =>
    obtain ⟨n, q⟩ := p
    by_cases h : n = k
    · simp [addToKey, h]
      ring
    · have hk' : k ∈ rest.map Prod.fst := by
        rcases List.mem_cons.1 hk with h1 | h1
        · exact absurd h1.symm h
        · exact h1
      simp [addToKey, h, ih hk']
      ring

/-- Every `pyRound2` value is an integer number of hundredths. -/
theorem pyRound2_div_100 (q : ℚ) : ∃ z : ℤ, pyRound2 q = (z : ℚ) / 100 :=
  ⟨roundHalfEven (q * 100), rfl⟩

/-- A sum of integer-hundredths is an integer number of hundredths. -/
theorem sum_div_100 (l : List ℚ) (h : ∀ x ∈ l, ∃ z : ℤ, x = (z : ℚ) / 100) :
    ∃ z : ℤ, l.sum = (z : ℚ) / 100 := by
  induction l with
  | nil => exact ⟨0, by simp⟩
  | cons a rest ih =>
    obtain ⟨za, ha⟩ := h a (List.mem_cons_self a rest)
    obtain ⟨zr, hr⟩ := ih (fun x hx => h x (List.mem_cons.2 (Or.inr hx)))
    refine ⟨za + zr, ?_⟩
    rw [List.sum_cons, ha, hr]
    push_cast
    ring

/-- Function `roundHalfEven` is the identity on integers. -/
theorem roundHalfEven_intCast (z : ℤ) : roundHalfEven ((z : ℤ) : ℚ) = z := by
  unfold roundHalfEven
  rw [Int.floor_intCast, sub_self]
  rw [if_neg (by norm_num)]
  exact round_intCast z

/-- Function `pyRound2` is the identity on integer numbers of hundredths. -/
theorem pyRound2_identity (z : ℤ) : pyRound2 ((z : ℚ) / 100) = (z : ℚ) / 100 := by
  unfold pyRound2
  have h : ((z : ℚ) / 100) * 100 = ((z : ℤ) : ℚ) := by
    field_simp
  rw [h, roundHalfEven_intCast]

/-- The post-rounding adjustment step of `calculate_allocation` yields a value
sum of exactly 100 whenever every entry is an integer number of hundredths. -/
theorem adjust_valsum (A : List (String × ℚ)) (hAne : A ≠ [])
    (hdiv : ∀ x ∈ A.map Prod.snd, ∃ z : ℤ, x = (z : ℚ) / 100) :
    (((if (A.map Prod.snd).sum ≠ 100 then
        addToKey A (dictArgmax A) (pyRound2 (100 - (A.map Prod.snd).sum))
      else A).map Prod.snd).sum) = 100 := by
  obtain ⟨z, hz⟩ := sum_div_100 (A.map Prod.snd) hdiv
  by_cases ht : (A.map Prod.snd).sum = 100
  · rw [if_neg (not_not_intro ht)]
    exact ht
  · rw [if_pos ht]
    rw [addToKey_valsum A _ _ (dictArgmax_mem A hAne)]
    have h100 : pyRound2 (100 - (A.map Prod.snd).sum) = 100 - (A.map Prod.snd).sum := by
      rw [hz]
      have he : (100 : ℚ) - (z : ℚ) / 100 = ((100 * 100 - z : ℤ) : ℚ) / 100 := by
        push_cast
        ring
      rw [he, pyRound2_identity]
    rw [h100]
    ring

/-- The value sum of `calculate_allocation` on a non-empty variant list is
exactly 100. -/
theorem calculate_allocation_valsum (e : ThompsonSamplingEngine)
    (v0 : VariantData) (vs : List VariantData) (samples : String → ℕ → ℚ) :
    ((e.calculate_allocation (v0 :: vs) samples).map Prod.snd).sum = 100 := by
  have hAkeys : ((ThompsonSamplingEngine.countWins e v0 vs samples).map
      (fun p => (p.1, pyRound2 ((p.2 : ℚ) / (e.n_samples : ℚ) * 100)))).map Prod.fst
      = v0.variant_name ::
        ((dictInit (vs.map (·.variant_name))).filter
          (fun p => p.1 ≠ v0.variant_name)).map Prod.fst := by
    rw [List.map_map]
    have h1 : (Prod.fst ∘ fun p : String × ℕ =>
        (p.1, pyRound2 ((p.2 : ℚ) / (e.n_samples : ℚ) * 100))) = Prod.fst := rfl
    rw [h1]
    unfold ThompsonSamplingEngine.countWins
    rw [foldl_incrKey_keys]
    simp [dictInit]
  have hAne : (ThompsonSamplingEngine.countWins e v0 vs samples).map
      (fun p => (p.1, pyRound2 ((p.2 : ℚ) / (e.n_samples : ℚ) * 100))) ≠ [] := by
    intro hnil
    rw [hnil] at hAkeys
    exact absurd hAkeys.symm (List.cons_ne_nil _ _)
  have hdiv : ∀ x ∈ ((ThompsonSamplingEngine.countWins e v0 vs samples).map
      (fun p => (p.1, pyRound2 ((p.2 : ℚ) / (e.n_samples : ℚ) * 100)))).map Prod.snd,
      ∃ z : ℤ, x = (z : ℚ) / 100 := by
    intro x hx
    rw [List.map_map] at hx
    obtain ⟨p, _, hp⟩ := List.mem_map.1 hx
    exact hp ▸ pyRound2_div_100 _
  simp only [ThompsonSamplingEngine.calculate_allocation]
  exact adjust_valsum _ hAne hdiv

/-- Inversion of a successful `Except` bind. -/
theorem exceptBind_ok {α β : Type} {x : Except String α} {f : α → Except String β}
    {b : β} (h : x >>= f = .ok b) : ∃ a, x = .ok a ∧ f a = .ok b := by
  cases x with
  | error e => exact absurd h (by simp [Bind.bind, Except.bind])
  | ok a => exact ⟨a, rfl, by simpa [Bind.bind, Except.bind] using h⟩

/-- A successful `m[k]` access means the key is present. -/
theorem dictGet_ok {m : Row} {k : String} {v : PyVal} (h : dictGet m k = .ok v) :
    m.lookup k = some v := by
  unfold dictGet at h
  split at h
  · injection h with h'
    rw [← h']
    assumption
  · exact absurd h (by simp)

/-- A successfully converted row keeps the row's `variant_name`. -/
theorem convertRow_name (e : ThompsonSamplingEngine) (m : Row) (t : String)
    (fb : Bool) (v : VariantData) (h : convertRow e m t fb = .ok v) :
    v.variant_name = rowName m := by
  unfold convertRow at h
  obtain ⟨x1, hx1, h⟩ := exceptBind_ok h
  obtain ⟨sessions, hs, h⟩ := exceptBind_ok h
  obtain ⟨x2, hx2, h⟩ := exceptBind_ok h
  obtain ⟨impressions, hi, h⟩ := exceptBind_ok h
  obtain ⟨x3, hx3, h⟩ := exceptBind_ok h
  obtain ⟨clicks, hc, h⟩ := exceptBind_ok h
  obtain ⟨x4, hx4, h⟩ := exceptBind_ok h
  obtain ⟨revenue, hr, h⟩ := exceptBind_ok h
  obtain ⟨ctr, hctr, h⟩ := exceptBind_ok h
  obtain ⟨rps, hrps, h⟩ := exceptBind_ok h
  obtain ⟨rpm, hrpm, h⟩ := exceptBind_ok h
  obtain ⟨cl, hcl, h⟩ := exceptBind_ok h
  obtain ⟨cu, hcu, h⟩ := exceptBind_ok h
  obtain ⟨vid, hvid, h⟩ := exceptBind_ok h
  obtain ⟨vname, hvname, h⟩ := exceptBind_ok h
  obtain ⟨ic, hic, h⟩ := exceptBind_ok h
  have hv : v = { variant_id := pyStr vid, variant_name := pyStr vname
                  is_control := pyTruthy ic, sessions := sessions
                  impressions := impressions, clicks := clicks
                  revenue := revenue, ctr := ctr, ctr_ci_lower := cl
                  ctr_ci_upper := cu, rps := rps, rpm := rpm
                  alpha := (if fb = true ∨ impressions < e.min_impressions then
                      ("fallback", (e.prior_alpha : ℚ), (e.prior_beta : ℚ))
                    else if t = "ctr" then
                      ("observed", (e.compute_beta_params_ctr clicks impressions).1,
                        (e.compute_beta_params_ctr clicks impressions).2)
                    else ("observed", 1, 1)).2.1
                  beta := (if fb = true ∨ impressions < e.min_impressions then
                      ("fallback", (e.prior_alpha : ℚ), (e.prior_beta : ℚ))
                    else if t = "ctr" then
                      ("observed", (e.compute_beta_params_ctr clicks impressions).1,
                        (e.compute_beta_params_ctr clicks impressions).2)
                    else ("observed", 1, 1)).2.2
                  data_source := (if fb = true ∨ impressions < e.min_impressions then
                      ("fallback", (e.prior_alpha : ℚ), (e.prior_beta : ℚ))
                    else if t = "ctr" then
                      ("observed", (e.compute_beta_params_ctr clicks impressions).1,
                        (e.compute_beta_params_ctr clicks impressions).2)
                    else ("observed", 1, 1)).1 } := by
    have := h
    simp only [pure, Except.pure] at this
    injection this with h'
    exact h'.symm
  rw [hv]
  unfold rowName dictGetD
  rw [dictGet_ok hvname]
  rfl

/-- Successful conversion preserves the row order and variant names. -/
theorem convert_names (e : ThompsonSamplingEngine) (t : String) (fb : Bool) :
    ∀ (rows : List Row) (vs : List VariantData),
      _convert_to_variant_data e rows t fb = .ok vs →
      vs.map (·.variant_name) = rows.map rowName := by
  intro rows
  induction rows with
  | nil =>
    intro vs h
    simp only [_convert_to_variant_data] at h
    injection h with h'
    rw [← h']
    rfl
  | cons m rest ih =>
    intro vs h
    simp only [_convert_to_variant_data] at h
    obtain ⟨v, hv, h⟩ := exceptBind_ok h
    obtain ⟨vs', hvs', h⟩ := exceptBind_ok h
    simp only [pure, Except.pure] at h
    injection h with h'
    rw [← h']
    simp only [List.map_cons]
    rw [convertRow_name e m t fb v hv, ih vs' hvs']

/-- On distinct names the wins dict has exactly those keys, in order. -/
theorem dictInit_keys (names : List String) (h : names.Nodup) :
    (dictInit names).map Prod.fst = names := by
  induction names with
  | nil => rfl
  | cons n rest ih =>
    have hn : n ∉ rest := (List.nodup_cons.1 h).1
    have ih' := ih (List.nodup_cons.1 h).2
    have hfil : (dictInit rest).filter (fun p => p.1 ≠ n) = dictInit rest := by
      apply List.filter_eq_self.2
      intro p hp
      have hmem : p.1 ∈ rest := by
        rw [← ih']
        exact List.mem_map_of_mem Prod.fst hp
      simp only [ne_eq, decide_eq_true_eq]
      exact fun he => hn (he ▸ hmem)
    simp only [dictInit, hfil, List.map_cons, ih']

/-- Function `calculate_allocation` keeps the keys of the initial wins dict. -/
theorem calculate_allocation_keys (e : ThompsonSamplingEngine)
    (v0 : VariantData) (vs : List VariantData) (samples : String → ℕ → ℚ) :
    (e.calculate_allocation (v0 :: vs) samples).map Prod.fst
      = (dictInit ((v0 :: vs).map (·.variant_name))).map Prod.fst := by
  have hAkeys : ((ThompsonSamplingEngine.countWins e v0 vs samples).map
      (fun p => (p.1, pyRound2 ((p.2 : ℚ) / (e.n_samples : ℚ) * 100)))).map Prod.fst
      = (dictInit ((v0 :: vs).map (·.variant_name))).map Prod.fst := by
    rw [List.map_map]
    have h1 : (Prod.fst ∘ fun p : String × ℕ =>
        (p.1, pyRound2 ((p.2 : ℚ) / (e.n_samples : ℚ) * 100))) = Prod.fst := rfl
    rw [h1]
    unfold ThompsonSamplingEngine.countWins
    rw [foldl_incrKey_keys]
  simp only [ThompsonSamplingEngine.calculate_allocation]
  by_cases ht : ((((ThompsonSamplingEngine.countWins e v0 vs samples).map
      (fun p => (p.1, pyRound2 ((p.2 : ℚ) / (e.n_samples : ℚ) * 100)))).map
        Prod.snd).sum) = 100
  · rw [if_neg (not_not_intro ht)]
    exact hAkeys
  · rw [if_pos ht, addToKey_keys]
    exact hAkeys

/-- Summing dict lookups over exactly the (distinct) key list gives the
value sum. -/
theorem lookup_getD_sum : ∀ (alloc : List (String × ℚ)) (names : List String),
    alloc.map Prod.fst = names → names.Nodup →
    (names.map (fun n => (alloc.lookup n).getD 0)).sum = (alloc.map Prod.snd).sum := by
  intro alloc
  induction alloc with
  | nil =>
    intro names hkeys _
    rw [← hkeys]
    rfl
  | cons p rest ih =>
    intro names hkeys hnd
    obtain ⟨k, v⟩ := p
    subst hkeys
    have hk : k ∉ rest.map Prod.fst := (List.nodup_cons.1 hnd).1
    simp only [List.map_cons, List.sum_cons]
    have hhead : ((((k, v) :: rest).lookup k).getD 0) = v := by
      simp [List.lookup]
    have htail : (rest.map Prod.fst).map
          (fun n => ((((k, v) :: rest).lookup n).getD 0))
        = (rest.map Prod.fst).map (fun n => ((rest.lookup n).getD 0)) := by
      apply List.map_congr_left
      intro n hn
      have hne : (n == k) = false := by
        apply beq_false_of_ne
        intro he
        exact hk (he ▸ hn)
      simp [List.lookup, hne]
    rw [hhead, htail, ih (rest.map Prod.fst) rfl (List.nodup_cons.1 hnd).2]

/-- Sorting is a permutation, so mapped sums are unchanged. -/
theorem sum_map_insertionSort (l : List VariantAllocation)
    (f : VariantAllocation → ℚ) :
    ((List.insertionSort allocLe l).map f).sum = (l.map f).sum :=
  List.Perm.sum_eq (List.Perm.map f (List.perm_insertionSort allocLe l))

/-- The response entries built from a non-empty variant list with distinct
names carry percentages summing to 100. -/
theorem sorted_alloc_sum (e : ThompsonSamplingEngine) (v0 : VariantData)
    (vs : List VariantData) (samples : String → ℕ → ℚ)
    (hnd : ((v0 :: vs).map (·.variant_name)).Nodup) :
    ((List.insertionSort allocLe ((v0 :: vs).map (toVariantAllocation
        (e.calculate_allocation (v0 :: vs) samples)))).map
          (·.allocation_percentage)).sum = 100 := by
  rw [sum_map_insertionSort, List.map_map]
  have hpct : ((·.allocation_percentage) ∘
      toVariantAllocation (e.calculate_allocation (v0 :: vs) samples))
      = fun v : VariantData =>
          (((e.calculate_allocation (v0 :: vs) samples).lookup v.variant_name).getD 0) := rfl
  rw [hpct]
  have hcomp : ((v0 :: vs).map fun v : VariantData =>
        (((e.calculate_allocation (v0 :: vs) samples).lookup v.variant_name).getD 0))
      = ((v0 :: vs).map (·.variant_name)).map
          (fun n => (((e.calculate_allocation (v0 :: vs) samples).lookup n).getD 0)) := by
    rw [List.map_map]
    rfl
  rw [hcomp]
  rw [lookup_getD_sum _ _ ((calculate_allocation_keys e v0 vs samples).trans
        (dictInit_keys _ hnd)) hnd]
  exact calculate_allocation_valsum e v0 vs samples

/-- Inversion of `pure` in `Except`. -/
theorem exceptPure_ok {α : Type} {a b : α}
    (h : (pure a : Except String α) = .ok b) : a = b := by
  simpa [pure, Except.pure] using h

/-- Any response `get_allocation` returns has percentages summing to 100
(rows with distinct variant names, non-empty allocation list). -/
theorem get_allocation_response_sum (cfg : Settings) (exp : Experiment)
    (getMetrics : ℤ → List Row) (samples : String → ℕ → ℚ)
    (eid : String) (w? : Option ℤ) (resp : AllocationResponse)
    (hres : (get_allocation cfg (some exp) getMetrics samples eid w?).response
      = .ok (some resp))
    (hnodup : ∀ d : ℤ, ((getMetrics d).map rowName).Nodup)
    (hne : resp.allocations ≠ []) :
    (resp.allocations.map (·.allocation_percentage)).sum = 100 := by
  simp only [get_allocation] at hres
  have tail : ∀ (vs : List VariantData),
      (∃ (d : ℤ) (fb : Bool), _convert_to_variant_data (engineOf cfg)
        (getMetrics d) exp.optimization_target fb = .ok vs) →
      ∀ (r : AllocationResponse),
        r.allocations = List.insertionSort allocLe
          (vs.map (toVariantAllocation ((engineOf cfg).calculate_allocation vs samples))) →
        r.allocations ≠ [] →
        (r.allocations.map (·.allocation_percentage)).sum = 100 := by
    rintro vs ⟨d, fb, hconv⟩ r hallocs hne'
    rw [hallocs] at hne' ⊢
    cases vs with
    | nil => simp [List.insertionSort] at hne'
    | cons v0 vs' =>
      apply sorted_alloc_sum
      rw [convert_names _ _ _ _ _ hconv]
      exact hnodup d
  obtain ⟨vsFirst, hc1, hres⟩ := exceptBind_ok hres
  cases hexp : (!_has_sufficient_data (engineOf cfg) vsFirst &&
      decide (w?.getD cfg.default_window_days < cfg.max_window_days)) with
  | true =>
    rw [hexp] at hres
    simp only [eq_self_iff_true, if_true, Bool.false_eq_true, if_false] at hres
    obtain ⟨vsMid, hc2, hres⟩ := exceptBind_ok hres
    cases hfb : (!_has_sufficient_data (engineOf cfg) vsMid) with
    | true =>
      rw [hfb] at hres
      simp only [eq_self_iff_true, if_true, Bool.false_eq_true, if_false] at hres
      obtain ⟨vs, hc3, hres⟩ := exceptBind_ok hres
      have hrec := exceptPure_ok hres
      injection hrec with hrec'
      subst hrec'
      exact tail vs ⟨_, _, hc3⟩ _ rfl hne
    | false =>
      rw [hfb] at hres
      simp only [eq_self_iff_true, if_true, Bool.false_eq_true, if_false] at hres
      obtain ⟨vs, hc3, hres⟩ := exceptBind_ok hres
      have hvs := exceptPure_ok hc3
      subst hvs
      have hrec := exceptPure_ok hres
      injection hrec with hrec'
      subst hrec'
      exact tail vsMid ⟨_, _, hc2⟩ _ rfl hne
  | false =>
    rw [hexp] at hres
    simp only [eq_self_iff_true, if_true, Bool.false_eq_true, if_false] at hres
    obtain ⟨vsMid, hc2, hres⟩ := exceptBind_ok hres
    have hvsMid := exceptPure_ok hc2
    subst hvsMid
    cases hfb : (!_has_sufficient_data (engineOf cfg) vsFirst) with
    | true =>
      rw [hfb] at hres
      simp only [eq_self_iff_true, if_true, Bool.false_eq_true, if_false] at hres
      obtain ⟨vs, hc3, hres⟩ := exceptBind_ok hres
      have hrec := exceptPure_ok hres
      injection hrec with hrec'
      subst hrec'
      exact tail vs ⟨_, _, hc3⟩ _ rfl hne
    | false =>
      rw [hfb] at hres
      simp only [eq_self_iff_true, if_true, Bool.false_eq_true, if_false] at hres
      obtain ⟨vs, hc3, hres⟩ := exceptBind_ok hres
      have hvs := exceptPure_ok hc3
      subst hvs
      have hrec := exceptPure_ok hres
      injection hrec with hrec'
      subst hrec'
      exact tail vsFirst ⟨_, _, hc1⟩ _ rfl hne

/-- C1: for every non-empty list of variants the allocation percentages
returned by `ThompsonSamplingEngine.calculate_allocation` sum to exactly
100.00 — including after the post-rounding adjustment of the currently
largest allocation — and hence the `allocation_percentage` values of every
`AllocationResponse` produced by `AllocationService.get_allocation` sum to
exactly 100.00 (stated for responses with a non-empty allocation list and
rows carrying distinct variant names, which the per-experiment uniqueness
constraint on variant names guarantees). -/
theorem allocation_percentages_sum_to_100 :
    (∀ (e : ThompsonSamplingEngine) (variants : List VariantData)
        (samples : String → ℕ → ℚ), variants ≠ [] → 0 < e.n_samples →
        ((e.calculate_allocation variants samples).map Prod.snd).sum = 100) ∧
    (∀ (cfg : Settings) (exp : Experiment) (getMetrics : ℤ → List Row)
        (samples : String → ℕ → ℚ) (eid : String) (w? : Option ℤ)
        (resp : AllocationResponse),
        (get_allocation cfg (some exp) getMetrics samples eid w?).response
          = .ok (some resp) →
        (∀ d : ℤ, ((getMetrics d).map rowName).Nodup) →
        resp.allocations ≠ [] →
        (resp.allocations.map (·.allocation_percentage)).sum = 100) := by
  constructor
  · intro e variants samples hne _
    match variants, hne with
    | v0 :: vs, _ => exact calculate_allocation_valsum e v0 vs samples
  · intro cfg exp getMetrics samples eid w? resp hres hnodup hne
    exact get_allocation_response_sum cfg exp getMetrics samples eid w? resp
      hres hnodup hne

set_option maxRecDepth 400000 in
/-- Witness for C1: the zero-impressions fixture for the engine part, and a
concrete two-variant response for the orchestrator part. -/
theorem allocation_percentages_sum_to_100_witness :
    (((engineOf cfg4).calculate_allocation [zeroVariantControl, zeroVariantA]
        rngStreamA).map Prod.snd).sum = 100 ∧
    (∃ resp, (get_allocation cfg4 (some ⟨"test_experiment", "ctr"⟩)
        c1Metrics rngStreamA "exp_123" none).response = .ok (some resp) ∧
      (resp.allocations.map (·.allocation_percentage)).sum = 100) := by
  refine ⟨allocation_percentages_sum_to_100.1 (engineOf cfg4)
      [zeroVariantControl, zeroVariantA] rngStreamA (by decide) (by decide),
    _, by with_unfolding_all exact rfl, ?hsum⟩
  case hsum =>
    exact allocation_percentages_sum_to_100.2 cfg4 ⟨"test_experiment", "ctr"⟩
      c1Metrics rngStreamA "exp_123" none _ (by with_unfolding_all exact rfl)
      (fun d => by
        show (List.map rowName
          [fullMetricsRow "var_001" "control" true 10000 320,
           fullMetricsRow "var_002" "variant_a" false 10000 450]).Nodup
        with_unfolding_all decide)
      (by with_unfolding_all decide)

/-- C5: if the variants aggregated over the requested window are not all
sufficient and the requested window is below `MAX_WINDOW_DAYS`, the data is
re-aggregated with `MAX_WINDOW_DAYS` and the response's `window_days` equals
`MAX_WINDOW_DAYS`; if that max-window aggregation is sufficient no fallback is
used (the response's algorithm string carries no fallback marker — the
response's only trace of `used_fallback`).  Otherwise the response's
`window_days` equals the requested window. -/
theorem get_allocation_window_expansion (cfg : Settings) (exp : Experiment)
    (getMetrics : ℤ → List Row) (samples : String → ℕ → ℚ)
    (eid : String) (w : ℤ) (vsFirst : List VariantData) (resp : AllocationResponse)
    (hc1 : _convert_to_variant_data (engineOf cfg) (getMetrics w)
      exp.optimization_target false = .ok vsFirst)
    (hres : (get_allocation cfg (some exp) getMetrics samples eid (some w)).response
      = .ok (some resp)) :
    ((_has_sufficient_data (engineOf cfg) vsFirst = false ∧ w < cfg.max_window_days) →
      resp.window_days = cfg.max_window_days ∧
      (∀ vsMax, _convert_to_variant_data (engineOf cfg)
          (getMetrics cfg.max_window_days) exp.optimization_target false = .ok vsMax →
        _has_sufficient_data (engineOf cfg) vsMax = true →
        resp.algorithm =
          "thompson_sampling (target: " ++ exp.optimization_target ++ ")")) ∧
    (¬ (_has_sufficient_data (engineOf cfg) vsFirst = false ∧ w < cfg.max_window_days) →
      resp.window_days = w) := by
  simp only [get_allocation, Option.getD_some] at hres
  obtain ⟨vsFirst', hc1', hres⟩ := exceptBind_ok hres
  rw [hc1] at hc1'
  injection hc1' with he
  subst he
  cases hexp : (!_has_sufficient_data (engineOf cfg) vsFirst &&
      decide (w < cfg.max_window_days)) with
  | true =>
    have hcond : _has_sufficient_data (engineOf cfg) vsFirst = false
        ∧ w < cfg.max_window_days := by
      have h := hexp
      rw [Bool.and_eq_true, Bool.not_eq_true'] at h
      exact ⟨h.1, by simpa using of_decide_eq_true h.2⟩
    rw [hexp] at hres
    simp only [eq_self_iff_true, if_true, Bool.false_eq_true, if_false] at hres
    obtain ⟨vsMid, hc2, hres⟩ := exceptBind_ok hres
    cases hfb : (!_has_sufficient_data (engineOf cfg) vsMid) with
    | true =>
      rw [hfb] at hres
      simp only [eq_self_iff_true, if_true, Bool.false_eq_true, if_false] at hres
      obtain ⟨vs, hc3, hres⟩ := exceptBind_ok hres
      have hrec := exceptPure_ok hres
      injection hrec with hrec'
      subst hrec'
      refine ⟨fun _ => ⟨rfl, fun vsMax hcMax hsuff2 => ?_⟩, fun hn => absurd hcond hn⟩
      rw [hc2] at hcMax
      injection hcMax with he2
      subst he2
      rw [hsuff2] at hfb
      exact absurd hfb (by simp)
    | false =>
      rw [hfb] at hres
      simp only [eq_self_iff_true, if_true, Bool.false_eq_true, if_false] at hres
      obtain ⟨vs, hc3, hres⟩ := exceptBind_ok hres
      have hvs := exceptPure_ok hc3
      subst hvs
      have hrec := exceptPure_ok hres
      injection hrec with hrec'
      subst hrec'
      exact ⟨fun _ => ⟨rfl, fun vsMax hcMax hsuff2 => rfl⟩, fun hn => absurd hcond hn⟩
  | false =>
    have hncond : ¬ (_has_sufficient_data (engineOf cfg) vsFirst = false
        ∧ w < cfg.max_window_days) := by
      intro hcond
      have htrue : (!_has_sufficient_data (engineOf cfg) vsFirst &&
          decide (w < cfg.max_window_days)) = true := by
        rw [Bool.and_eq_true, Bool.not_eq_true']
        exact ⟨hcond.1, decide_eq_true hcond.2⟩
      rw [hexp] at htrue
      exact absurd htrue (by simp)
    rw [hexp] at hres
    simp only [eq_self_iff_true, if_true, Bool.false_eq_true, if_false] at hres
    obtain ⟨vsMid, hc2, hres⟩ := exceptBind_ok hres
    have hvsMid := exceptPure_ok hc2
    subst hvsMid
    cases hfb : (!_has_sufficient_data (engineOf cfg) vsFirst) with
    | true =>
      rw [hfb] at hres
      simp only [eq_self_iff_true, if_true, Bool.false_eq_true, if_false] at hres
      obtain ⟨vs, hc3, hres⟩ := exceptBind_ok hres
      have hrec := exceptPure_ok hres
      injection hrec with hrec'
      subst hrec'
      exact ⟨fun hcond => absurd hcond hncond, fun _ => rfl⟩
    | false =>
      rw [hfb] at hres
      simp only [eq_self_iff_true, if_true, Bool.false_eq_true, if_false] at hres
      obtain ⟨vs, hc3, hres⟩ := exceptBind_ok hres
      have hvs := exceptPure_ok hc3
      subst hvs
      have hrec := exceptPure_ok hres
      injection hrec with hrec'
      subst hrec'
      exact ⟨fun hcond => absurd hcond hncond, fun _ => rfl⟩

set_option maxRecDepth 400000 in
/-- Witness for C5: the spec's window-expansion scenario — insufficient at
14 days, sufficient at 30 — yields a response with `window_days = 30`. -/
theorem get_allocation_window_expansion_witness :
    ∃ vsFirst resp,
      _convert_to_variant_data (engineOf cfg4) (c5Metrics 14) "ctr" false
        = .ok vsFirst ∧
      (get_allocation cfg4 (some ⟨"test_experiment", "ctr"⟩) c5Metrics rngStreamA
        "exp_123" (some 14)).response = .ok (some resp) ∧
      resp.window_days = cfg4.max_window_days := by
  refine ⟨?vs, ?resp, ?hc1, ?hres, ?hwin⟩
  case hc1 => with_unfolding_all exact rfl
  case hres => with_unfolding_all exact rfl
  case hwin =>
    exact ((get_allocation_window_expansion cfg4 ⟨"test_experiment", "ctr"⟩
      c5Metrics rngStreamA "exp_123" 14 _ _
      (by with_unfolding_all exact rfl)
      (by with_unfolding_all exact rfl)).1
      ⟨by with_unfolding_all decide, by decide⟩).1

/-- The insertion loop commits a prefix of the batch: some `k` entries are
fully applied (raw append + daily upsert each), and `k` is the whole batch
iff the loop succeeds. -/
theorem insertLoopTake (vmap : String → Option String) (date : String)
    (fails : ℕ → Bool) :
    ∀ (entries : List MetricEntry) (s : DBState) (i : ℕ),
      ∃ k, k ≤ entries.length ∧
        (insertLoop vmap date fails s i entries).1
          = applyEntries vmap date s (entries.take k) ∧
        ((insertLoop vmap date fails s i entries).2 = .ok () → k = entries.length) := by
  intro entries
  induction entries with
  | nil =>
    intro s i
    exact ⟨0, by simp, rfl, fun _ => rfl⟩
  | cons e rest ih =>
    intro s i
    by_cases hf : fails i
    · refine ⟨0, by simp, ?_, ?_⟩
      · simp [insertLoop, insert_metrics, hf, applyEntries]
      · intro hok
        simp [insertLoop, insert_metrics, hf] at hok
    · obtain ⟨k, hk, hstate, hok⟩ := ih
        { raw_metrics := s.raw_metrics ++
            [⟨(vmap e.variant_name).getD "", date, e.impressions, e.clicks⟩]
          daily_metrics := upsertDaily s.daily_metrics
            ⟨(vmap e.variant_name).getD "", date, e.impressions, e.clicks⟩ } (i + 1)
      refine ⟨k + 1, by simpa using Nat.succ_le_succ hk, ?_, ?_⟩
      · rw [List.take_succ_cons]
        simp only [insertLoop, insert_metrics, hf, Bool.false_eq_true, if_false]
        exact hstate.trans rfl
      · intro hloopok
        simp only [insertLoop, insert_metrics, hf, Bool.false_eq_true, if_false] at hloopok
        simp [hok hloopok]

/-- C9 (amended): `record_metrics` validates the experiment and every variant
name before any write (a validation failure persists nothing), and each
entry's raw append plus daily upsert commit atomically together; but the
batch is only prefix-atomic: the final state is the initial state with some
prefix of the batch applied — the whole batch exactly when the call
succeeds. -/
theorem record_metrics_prefix_semantics (experiment : Option ExperimentWithVariants)
    (s : DBState) (date : String) (entries : List MetricEntry) (fails : ℕ → Bool) :
    (experiment = none → (record_metrics experiment s date entries fails).1 = s) ∧
    (∀ exp, experiment = some exp →
      (entries.all (fun m => (variantIdFor exp.variants m.variant_name).isSome) = false →
        (record_metrics experiment s date entries fails).1 = s) ∧
      (entries.all (fun m => (variantIdFor exp.variants m.variant_name).isSome) = true →
        ∃ k, k ≤ entries.length ∧
          (record_metrics experiment s date entries fails).1
            = applyEntries (variantIdFor exp.variants) date s (entries.take k) ∧
          (∀ r, (record_metrics experiment s date entries fails).2 = .ok r →
            k = entries.length))) := by
  constructor
  · intro he
    subst he
    rfl
  · intro exp he
    subst he
    constructor
    · intro hval
      simp [record_metrics, hval]
    · intro hval
      obtain ⟨k, hk, hstate, hok⟩ :=
        insertLoopTake (variantIdFor exp.variants) date fails entries s 0
      refine ⟨k, hk, ?_, ?_⟩
      · simp only [record_metrics, hval, if_true]
        rw [← hstate]
        cases hl : insertLoop (variantIdFor exp.variants) date fails s 0 entries with
        | mk s' res =>
          cases res with
          | ok u => rfl
          | error msg => rfl
      · intro r hr
        apply hok
        simp only [record_metrics, hval, if_true] at hr
        cases hl : insertLoop (variantIdFor exp.variants) date fails s 0 entries with
        | mk s' res =>
          rw [hl] at hr
          cases res with
          | ok u => rfl
          | error msg => simp at hr

/-- Witness for the amended C9: the two-entry batch under a second-entry
failure, validated against the concrete experiment. -/
theorem record_metrics_prefix_semantics_witness :
    ∃ k, k ≤ ([entryControl, entryVariantA] : List MetricEntry).length ∧
      (record_metrics (some expTwoVariants) ⟨[], []⟩ "2025-01-15"
        [entryControl, entryVariantA] failSecond).1
        = applyEntries (variantIdFor expTwoVariants.variants) "2025-01-15" ⟨[], []⟩
            ([entryControl, entryVariantA].take k) ∧
      (∀ r, (record_metrics (some expTwoVariants) ⟨[], []⟩ "2025-01-15"
          [entryControl, entryVariantA] failSecond).2 = .ok r →
        k = ([entryControl, entryVariantA] : List MetricEntry).length) :=
  ((record_metrics_prefix_semantics (some expTwoVariants) ⟨[], []⟩ "2025-01-15"
      [entryControl, entryVariantA] failSecond).2 expTwoVariants rfl).2
    (by with_unfolding_all decide)
